import Mathlib

/-!
Shallow embedding of the motion/timing synthesis core of `human-browser`
(`src/human-mouse.js`).  JS `number` arithmetic is modelled by exact real
arithmetic over `ℝ` (the uniform draws of `Math.random()` and the outputs of
`gaussRandom()` are passed in as explicit parameters, so every function is a
deterministic function of its inputs and its random draws).  `Math.round`
is `round : ℝ → ℤ` (both round halves toward `+∞`).
-/

noncomputable section

/-- Point2D `{x, y}` (human-mouse.js uses plain `{x, y}` objects). -/
structure P2 where
  x : ℝ
  y : ℝ

/-- PathPoint `{x, y, dt}` as produced by `generatePath`. -/
structure PathPoint where
  x : ℝ
  y : ℝ
  dt : ℝ

/-- BoundingBox `{x, y, width, height}`. -/
structure Box where
  x : ℝ
  y : ℝ
  width : ℝ
  height : ℝ

namespace vec

/-- `vec.add` (human-mouse.js line 17). -/
def add (a b : P2) : P2 := ⟨a.x + b.x, a.y + b.y⟩

/-- `vec.sub` (line 18). -/
def sub (a b : P2) : P2 := ⟨a.x - b.x, a.y - b.y⟩

/-- `vec.mult` (line 19). -/
def mult (a : P2) (s : ℝ) : P2 := ⟨a.x * s, a.y * s⟩

/-- `vec.mag` (line 20): `Math.sqrt(a.x*a.x + a.y*a.y)`. -/
def mag (a : P2) : ℝ := Real.sqrt (a.x * a.x + a.y * a.y)

/-- `vec.unit` (line 21): `m === 0 ? {x:0,y:0} : {x/m, y/m}`. -/
def unit (a : P2) : P2 :=
  if mag a = 0 then ⟨0, 0⟩ else ⟨a.x / mag a, a.y / mag a⟩

/-- `vec.perp` (line 22): 90° rotation. -/
def perp (a : P2) : P2 := ⟨a.y, -a.x⟩

/-- `vec.setMag` (line 23): `mult (unit a) m`. -/
def setMag (a : P2) (m : ℝ) : P2 := mult (unit a) m

/-- `vec.lerp` (line 24). -/
def lerp (a b : P2) (t : ℝ) : P2 :=
  ⟨a.x + (b.x - a.x) * t, a.y + (b.y - a.y) * t⟩

end vec

/-- `rand(min, max)` (lines 29-31): `Math.random() * (max - min) + min`,
with the `Math.random()` draw `u` passed explicitly. -/
def rand (mn mx u : ℝ) : ℝ := u * (mx - mn) + mn

/-- `gauss(mean, stddev)` (lines 45-47): `mean + gaussRandom() * stddev`,
with the `gaussRandom()` sample `g` passed explicitly. -/
def gauss (g mean stddev : ℝ) : ℝ := mean + g * stddev

/-- JS `a || b` on an optional number: `0` (falsy) also selects the default. -/
def jsOrR (o : Option ℝ) (d : ℝ) : ℝ :=
  match o with
  | none => d
  | some v => if v = 0 then d else v

/-- JS `a || b` on an optional count. -/
def jsOrN (o : Option ℕ) (d : ℕ) : ℕ :=
  match o with
  | none => d
  | some v => if v = 0 then d else v

/-- JS `points[points.length - 1] = p`: on an empty array this creates a
stray `-1` property and leaves the array empty; otherwise it replaces the
last element. -/
def jsSetLast {α : Type} (l : List α) (p : α) : List α :=
  match l with
  | [] => []
  | _ :: _ => l.dropLast ++ [p]

theorem jsSetLast_of_ne_nil {α : Type} {l : List α} (p : α) (h : l ≠ []) :
    jsSetLast l p = l.dropLast ++ [p] := by
  cases l with
  | nil => exact absurd rfl h
  | cons a t => rfl

/-- `round` is monotone (helper for range bounds after `Math.round`). -/
theorem round_le_round {a b : ℝ} (h : a ≤ b) : round a ≤ round b := by
  rw [round_eq, round_eq]
  exact Int.floor_le_floor (by linarith)

theorem round_nonneg_of_nonneg {a : ℝ} (h : 0 ≤ a) : 0 ≤ round a := by
  have := round_le_round h
  simpa using this

end

noncomputable section

/-- `bezierControlPoints(start, end, spread)` (human-mouse.js lines 56-78).
`sb` is the side-coin `Math.random()` draw; `t1 m1` and `t2 m2` are the two
draws consumed by each of the two `makeCP()` calls. -/
def bezierControlPoints (start endp : P2) (spread : Option ℝ)
    (sb t1 m1 t2 m2 : ℝ) : P2 × P2 :=
  let dir := vec.sub endp start
  let dist := vec.mag dir
  let clampedSpread := max 2 (min (dist * 0.5) (jsOrR spread (dist * 0.3)))
  let side : ℝ := if sb > 0.5 then 1 else -1
  let makeCP := fun (t m : ℝ) =>
    vec.add (vec.lerp start endp (rand 0.2 0.8 t))
      (vec.setMag (vec.perp dir) (clampedSpread * rand 0.3 1.0 m * side))
  let cp1 := makeCP t1 m1
  let cp2 := makeCP t2 m2
  let proj := fun p =>
    ((vec.sub p start).x * dir.x + (vec.sub p start).y * dir.y) / (dist * dist)
  if proj cp1 ≤ proj cp2 then (cp1, cp2) else (cp2, cp1)

/-- `cubicBezier(p0, p1, p2, p3, t)` (lines 83-89). -/
def cubicBezier (p0 p1 p2 p3 : P2) (t : ℝ) : P2 :=
  let u := 1 - t
  ⟨u*u*u * p0.x + 3*u*u*t * p1.x + 3*u*t*t * p2.x + t*t*t * p3.x,
   u*u*u * p0.y + 3*u*u*t * p1.y + 3*u*t*t * p2.y + t*t*t * p3.y⟩

/-- MotionConfig: the option bag consumed by `generatePath` (lines 105-116).
`steps` is modelled as an optional count. -/
structure MotionConfig where
  steps : Option ℕ := none
  tremor : Option ℝ := none
  spread : Option ℝ := none
  targetWidth : Option ℝ := none

/-- Step count of `generatePath` (lines 109-114):
`opts.steps || Math.max(15, Math.round(fittsTime * 18 + rand(5, 15)))`
with `targetWidth = opts.targetWidth || 50` and
`fittsTime = Math.log2(dist / targetWidth + 1)`. -/
def genBaseSteps (frm tgt : P2) (opts : MotionConfig) (us : ℝ) : ℕ :=
  let dist := vec.mag (vec.sub tgt frm)
  let targetWidth := jsOrR opts.targetWidth 50
  let fittsTime := Real.logb 2 (dist / targetWidth + 1)
  jsOrN opts.steps (max 15 (round (fittsTime * 18 + rand 5 15 us))).toNat

/-- Body of the sampling loop of `generatePath` (lines 119-142), at loop
index `i` with step count `n`; `uj i` is the `rand(4,12)` draw and
`g1 i`, `g2 i` the two `gaussRandom()` samples of iteration `i`. -/
def genPoint (frm tgt : P2) (tremor : ℝ) (cp1 cp2 : P2) (n : ℕ)
    (uj g1 g2 : ℕ → ℝ) (i : ℕ) : PathPoint :=
  let t : ℝ := (i : ℝ) / (n : ℝ)
  let eased := t*t*t * (t * (t*6 - 15) + 10)
  let p := cubicBezier frm cp1 cp2 tgt eased
  let tremorScale := 1 - t^2
  let jx := gauss (g1 i) 0 (tremor * tremorScale)
  let jy := gauss (g2 i) 0 (tremor * tremorScale)
  let speedFactor := 0.3 + 0.7 * Real.sin (Real.pi * t)
  let baseDt := rand 4 12 (uj i)
  let dt := baseDt / max speedFactor 0.3
  ⟨((round (p.x + jx) : ℤ) : ℝ), ((round (p.y + jy) : ℤ) : ℝ),
   ((round dt : ℤ) : ℝ)⟩

/-- `generatePath(from, to, opts)` (lines 105-148).  Random draws, in the
order the source consumes them: `us` for the step count's `rand(5,15)`;
`sb t1 m1 t2 m2` inside `bezierControlPoints`; per-iteration streams
`g1 g2` (tremor) and `uj` (`rand(4,12)`); `ufin` for the final point's
`rand(2,6)`. -/
def generatePath (frm tgt : P2) (opts : MotionConfig)
    (us sb t1 m1 t2 m2 : ℝ) (uj g1 g2 : ℕ → ℝ) (ufin : ℝ) : List PathPoint :=
  if vec.mag (vec.sub tgt frm) < 1 then [⟨tgt.x, tgt.y, 0⟩] else
  let tremor := opts.tremor.getD 1.2
  let n := genBaseSteps frm tgt opts us
  let cps := bezierControlPoints frm tgt opts.spread sb t1 m1 t2 m2
  let points := (List.range (n + 1)).map (genPoint frm tgt tremor cps.1 cps.2 n uj g1 g2)
  jsSetLast points ⟨((round tgt.x : ℤ) : ℝ), ((round tgt.y : ℤ) : ℝ), rand 2 6 ufin⟩

/-- `moveToElement(box)`'s returned target point (lines 249-257):
`Math.round(box.x + padX + rand(0, box.width - 2*padX))` and likewise for
`y`, with `pad = 0.15 * size` and draws `u`, `v`. -/
def moveToElementPoint (box : Box) (u v : ℝ) : ℤ × ℤ :=
  let padX := box.width * 0.15
  let padY := box.height * 0.15
  (round (box.x + padX + rand 0 (box.width - 2*padX) u),
   round (box.y + padY + rand 0 (box.height - 2*padY) v))

end

/-- Sink events issued by the controller and the typing planner (all
`waitForTimeout` arguments at these call sites are `Math.round`ed, hence
integers). -/
inductive Ev : Type
  | wait (ms : ℤ)
  | down
  | up
  | wheel (n : ℤ)
  | key (c : Char)
  deriving DecidableEq

noncomputable section

/-- `humanScroll(deltaY)` (human-mouse.js lines 304-315) as the trace of
sink events it issues: `u` is the `rand(3,6)` draw, `g i` the per-step
`gaussRandom()` sample, `w i` the per-step `rand(60,150)` draw and `wf`
the final `rand(200,500)` draw. -/
def humanScrollTrace (deltaY : ℝ) (u : ℝ) (g w : ℕ → ℝ) (wf : ℝ) : List Ev :=
  let steps : ℤ := round (rand 3 6 u)
  let perStep := deltaY / (steps : ℝ)
  ((List.range steps.toNat).flatMap fun i =>
    [Ev.wheel (round (perStep + gauss (g i) 0 (|perStep| * 0.15))),
     Ev.wait (round (rand 60 150 (w i)))])
  ++ [Ev.wait (round (rand 200 500 wf))]

/-- `click(clickOpts)` (lines 262-268) as new-state + trace: the closure
never touches `cursorPos`, so the state component is the incoming state. -/
def clickSem (s : P2) (d1 d2 d3 : ℝ) : P2 × List Ev :=
  (s, [Ev.wait (round (rand 60 180 d1)), Ev.down,
       Ev.wait (round (rand 50 120 d2)), Ev.up,
       Ev.wait (round (rand 80 200 d3))])

/-- `humanScroll` as new-state + trace (lines 304-315): the closure never
touches `cursorPos`. -/
def humanScrollSem (s : P2) (deltaY : ℝ) (u : ℝ) (g w : ℕ → ℝ) (wf : ℝ) :
    P2 × List Ev :=
  (s, humanScrollTrace deltaY u g w wf)

/-- `moveTo(x, y)`'s effect on `cursorPos` (line 241): on completion the
owned state is set to the exact target. -/
def moveToSemPos (_s : P2) (x y : ℝ) : P2 := ⟨x, y⟩

end

/-- The punctuation string `',. ;:!?'` of human-mouse.js line 354. -/
def punctChars : List Char := [',', '.', ' ', ';', ':', '!', '?']

/-- JS `hay.includes(needle)`: substring test (note `includes('')` is
`true`). -/
def jsIncludes (hay needle : List Char) : Bool :=
  (List.range (hay.length + 1)).any fun k => needle.isPrefixOf (hay.drop k)

/-- JS `text[i]` for integer `i` (negative or out-of-range gives
`undefined`, modelled as `none`). -/
def jsCharAt (s : List Char) (i : ℤ) : Option Char :=
  if h : 0 ≤ i ∧ i.toNat < s.length then some (s.get ⟨i.toNat, h.2⟩) else none

/-- JS `x || ''` on an optional character: `undefined` becomes the empty
string. -/
def jsOrEmpty (o : Option Char) : List Char :=
  match o with
  | some c => [c]
  | none => []

/-- The punctuation-pause condition of `humanType` (line 354):
`',. ;:!?'.includes(text[i - 1] || '')`. -/
def punctPause (text : List Char) (i : ℕ) : Bool :=
  jsIncludes punctChars (jsOrEmpty (jsCharAt text ((i : ℤ) - 1)))

noncomputable section

/-- `humanType(page, text, opts)` (lines 341-363) as the trace of sink
events: per character `i`, `think i` is the 8%-chance draw, `tp i` the
thinking-pause `rand(200,600)` draw, `pp i` the punctuation-pause
`rand(80,200)` draw and `gd i` the `gaussRandom()` sample of the
inter-key delay.  `text.getD i` is only evaluated at `i < text.length`. -/
def humanTypeTrace (text : List Char) (baseDelay variance : Option ℝ)
    (think tp pp gd : ℕ → ℝ) : List Ev :=
  let bd := jsOrR baseDelay 65
  let vr := jsOrR variance 35
  (List.range text.length).flatMap fun i =>
    (if think i < 0.08 ∧ 0 < i then [Ev.wait (round (rand 200 600 (tp i)))] else [])
    ++ (if punctPause text i then [Ev.wait (round (rand 80 200 (pp i)))] else [])
    ++ [Ev.key (text.getD i ' '),
        Ev.wait (round (max 20 (gauss (gd i) bd vr)))]

end

/-- Accepted pair of the Box-Muller rejection loop of `gaussRandom()`
(lines 34-42): draw `u = r(2k)*2-1`, `v = r(2k+1)*2-1`, accept when
`s = u*u+v*v` satisfies `¬(s ≥ 1 ∨ s = 0)`.  The `Math.random()` stream
`r` is rational (floats are rationals), keeping acceptance decidable. -/
def gaussAccept (r : ℕ → ℚ) (k : ℕ) : Bool :=
  let u := r (2*k) * 2 - 1
  let v := r (2*k + 1) * 2 - 1
  let s := u*u + v*v
  decide (s < 1) && decide (s ≠ 0)

/-- The `u` of the `k`-th candidate pair. -/
def gaussU (r : ℕ → ℚ) (k : ℕ) : ℚ := r (2*k) * 2 - 1

/-- The `s = u*u + v*v` of the `k`-th candidate pair. -/
def gaussS (r : ℕ → ℚ) (k : ℕ) : ℚ :=
  (r (2*k) * 2 - 1) * (r (2*k) * 2 - 1) +
  (r (2*k + 1) * 2 - 1) * (r (2*k + 1) * 2 - 1)

/-- The do-while loop of `gaussRandom` (lines 36-40): the index of the pair
at which the loop exits, given that some pair is eventually accepted. -/
def gaussRandomIdx (r : ℕ → ℚ) (h : ∃ k, gaussAccept r k = true) : ℕ :=
  Nat.find h

/-- `gaussRandom()` (lines 34-42): `u * Math.sqrt(-2 * Math.log(s) / s)`
computed from the pair at which the rejection loop exits. -/
noncomputable def gaussRandom (r : ℕ → ℚ) (h : ∃ k, gaussAccept r k = true) : ℝ :=
  let k := gaussRandomIdx r h
  (gaussU r k : ℝ) * Real.sqrt (-2 * Real.log ((gaussS r k : ℚ) : ℝ) / ((gaussS r k : ℚ) : ℝ))

/-- The step count is always at least 1 (the Fitts default is ≥ 15, and a
provided nonzero count is ≥ 1). -/
theorem genBaseSteps_pos (frm tgt : P2) (opts : MotionConfig) (us : ℝ) :
    1 ≤ genBaseSteps frm tgt opts us := by
  unfold genBaseSteps jsOrN
  have key : (1 : ℕ) ≤ (max 15 (round
      (Real.logb 2 (vec.mag (vec.sub tgt frm) / jsOrR opts.targetWidth 50 + 1) * 18 +
        rand 5 15 us))).toNat := by
    have h1 : ((1 : ℤ)).toNat = (1 : ℕ) := rfl
    have h2 : (1 : ℤ) ≤ max 15 (round
        (Real.logb 2 (vec.mag (vec.sub tgt frm) / jsOrR opts.targetWidth 50 + 1) * 18 +
          rand 5 15 us)) := le_trans (by norm_num) (le_max_left 15 _)
    rw [← h1]
    exact Int.toNat_le_toNat h2
  cases hs : opts.steps with
  | none => simp only; exact key
  | some v =>
    by_cases hv : v = 0
    · subst hv
      simp only [if_pos rfl]
      exact key
    · simp only [if_neg hv]
      omega

/-- Unfolding of the non-degenerate branch of `generatePath`. -/
theorem generatePath_not_lt (frm tgt : P2) (opts : MotionConfig)
    (us sb t1 m1 t2 m2 : ℝ) (uj g1 g2 : ℕ → ℝ) (ufin : ℝ)
    (h : ¬ vec.mag (vec.sub tgt frm) < 1) :
    generatePath frm tgt opts us sb t1 m1 t2 m2 uj g1 g2 ufin =
      ((List.range (genBaseSteps frm tgt opts us + 1)).map
        (genPoint frm tgt (opts.tremor.getD 1.2)
          (bezierControlPoints frm tgt opts.spread sb t1 m1 t2 m2).1
          (bezierControlPoints frm tgt opts.spread sb t1 m1 t2 m2).2
          (genBaseSteps frm tgt opts us) uj g1 g2)).dropLast ++
      [⟨((round tgt.x : ℤ) : ℝ), ((round tgt.y : ℤ) : ℝ), rand 2 6 ufin⟩] := by
  unfold generatePath
  rw [if_neg h]
  exact jsSetLast_of_ne_nil _ (by simp)

/-- The non-degenerate path always ends at the snapped target point. -/
theorem generatePath_getLast?_eq (frm tgt : P2) (opts : MotionConfig)
    (us sb t1 m1 t2 m2 : ℝ) (uj g1 g2 : ℕ → ℝ) (ufin : ℝ)
    (h : ¬ vec.mag (vec.sub tgt frm) < 1) :
    (generatePath frm tgt opts us sb t1 m1 t2 m2 uj g1 g2 ufin).getLast? =
      some ⟨((round tgt.x : ℤ) : ℝ), ((round tgt.y : ℤ) : ℝ), rand 2 6 ufin⟩ := by
  rw [generatePath_not_lt frm tgt opts us sb t1 m1 t2 m2 uj g1 g2 ufin h]
  exact List.getLast?_concat _

/-- Length of the non-degenerate path: step count + 1. -/
theorem generatePath_length (frm tgt : P2) (opts : MotionConfig)
    (us sb t1 m1 t2 m2 : ℝ) (uj g1 g2 : ℕ → ℝ) (ufin : ℝ)
    (h : ¬ vec.mag (vec.sub tgt frm) < 1) :
    (generatePath frm tgt opts us sb t1 m1 t2 m2 uj g1 g2 ufin).length =
      genBaseSteps frm tgt opts us + 1 := by
  rw [generatePath_not_lt frm tgt opts us sb t1 m1 t2 m2 uj g1 g2 ufin h]
  simp

/-- Helper: the distance used by `generatePath ⟨0,0⟩ → ⟨50,0⟩`. -/
theorem mag_50 : vec.mag (vec.sub ⟨50, 0⟩ ⟨0, 0⟩) = 50 := by
  simp only [vec.mag, vec.sub]
  rw [show ((50 : ℝ) - 0) * ((50 : ℝ) - 0) + ((0 : ℝ) - 0) * ((0 : ℝ) - 0) = 50 * 50 by norm_num]
  exact Real.sqrt_mul_self (by norm_num)

/-- C1 counterexample: for `from = (0,0)`, `to = (0.5, 0)` the distance is
`0.5 < 1`, so `generatePath` takes the degenerate shortcut and returns the
single point `(0.5, 0)` with the coordinates NOT rounded, while the claim
requires the last point to be `(round 0.5, 0) = (1, 0)`. -/
theorem generatePath_degenerate_unrounded_cex :
    generatePath ⟨0, 0⟩ ⟨1/2, 0⟩ {} 0 0 0 0 0 0
        (fun _ => 0) (fun _ => 0) (fun _ => 0) 0 = [⟨1/2, 0, 0⟩] ∧
    ((1 : ℝ)/2) ≠ ((round ((1 : ℝ)/2) : ℤ) : ℝ) := by
  constructor
  · unfold generatePath
    rw [if_pos]
    simp only [vec.mag, vec.sub]
    rw [show ((1:ℝ)/2 - 0) * ((1:ℝ)/2 - 0) + ((0:ℝ) - 0) * ((0:ℝ) - 0) = (1/2) * (1/2) by
      norm_num]
    rw [Real.sqrt_mul_self (by norm_num)]
    norm_num
  · rw [show round ((1:ℝ)/2) = 1 by norm_num [round_eq]]
    norm_num

/-- C1 (amended): every generated path is non-empty; when
`distance(from,to) ≥ 1` its last point is exactly the rounded target; in
the degenerate case (`distance < 1`) the path is the single point at the
RAW (unrounded) target with `dt = 0`. -/
theorem generatePath_last_amended (frm tgt : P2) (opts : MotionConfig)
    (us sb t1 m1 t2 m2 : ℝ) (uj g1 g2 : ℕ → ℝ) (ufin : ℝ) :
    generatePath frm tgt opts us sb t1 m1 t2 m2 uj g1 g2 ufin ≠ [] ∧
    (1 ≤ vec.mag (vec.sub tgt frm) →
      (generatePath frm tgt opts us sb t1 m1 t2 m2 uj g1 g2 ufin).getLast? =
        some ⟨((round tgt.x : ℤ) : ℝ), ((round tgt.y : ℤ) : ℝ), rand 2 6 ufin⟩) ∧
    (vec.mag (vec.sub tgt frm) < 1 →
      generatePath frm tgt opts us sb t1 m1 t2 m2 uj g1 g2 ufin = [⟨tgt.x, tgt.y, 0⟩]) := by
  refine ⟨?_, ?_, ?_⟩
  · by_cases h : vec.mag (vec.sub tgt frm) < 1
    · unfold generatePath
      rw [if_pos h]
      simp
    · rw [generatePath_not_lt frm tgt opts us sb t1 m1 t2 m2 uj g1 g2 ufin h]
      simp
  · intro h
    exact generatePath_getLast?_eq frm tgt opts us sb t1 m1 t2 m2 uj g1 g2 ufin (not_lt.mpr h)
  · intro h
    unfold generatePath
    rw [if_pos h]

/-- Witness for the amended C1 theorem at a concrete non-degenerate move. -/
theorem generatePath_last_amended_witness :
    (1 : ℝ) ≤ vec.mag (vec.sub ⟨50, 0⟩ ⟨0, 0⟩) ∧
    (generatePath ⟨0, 0⟩ ⟨50, 0⟩ {} 0 0 0 0 0 0
        (fun _ => 0) (fun _ => 0) (fun _ => 0) 0).getLast? = some ⟨50, 0, 2⟩ := by
  have h1 : (1 : ℝ) ≤ vec.mag (vec.sub ⟨50, 0⟩ ⟨0, 0⟩) := by
    rw [mag_50]; norm_num
  refine ⟨h1, ?_⟩
  have h2 := (generatePath_last_amended ⟨0, 0⟩ ⟨50, 0⟩ {} 0 0 0 0 0 0
      (fun _ => 0) (fun _ => 0) (fun _ => 0) 0).2.1 h1
  rw [h2]
  norm_num [rand, round_eq]

/-- Every point produced by the sampling loop has integer coordinates,
integer `dt`, and `dt ≥ 0` (given a nonnegative `rand(4,12)` draw). -/
theorem genPoint_shape (frm tgt : P2) (tremor : ℝ) (cp1 cp2 : P2) (n : ℕ)
    (uj g1 g2 : ℕ → ℝ) (i : ℕ) (hu : 0 ≤ uj i) :
    (∃ a : ℤ, (genPoint frm tgt tremor cp1 cp2 n uj g1 g2 i).x = (a : ℝ)) ∧
    (∃ b : ℤ, (genPoint frm tgt tremor cp1 cp2 n uj g1 g2 i).y = (b : ℝ)) ∧
    (∃ d : ℤ, (genPoint frm tgt tremor cp1 cp2 n uj g1 g2 i).dt = (d : ℝ)) ∧
    0 ≤ (genPoint frm tgt tremor cp1 cp2 n uj g1 g2 i).dt := by
  refine ⟨⟨_, rfl⟩, ⟨_, rfl⟩, ⟨_, rfl⟩, ?_⟩
  show (0 : ℝ) ≤ ((round (rand 4 12 (uj i) /
      max (0.3 + 0.7 * Real.sin (Real.pi * ((i : ℝ) / (n : ℝ)))) 0.3) : ℤ) : ℝ)
  have hpos : 0 < rand 4 12 (uj i) /
      max (0.3 + 0.7 * Real.sin (Real.pi * ((i : ℝ) / (n : ℝ)))) 0.3 := by
    apply div_pos
    · unfold rand
      nlinarith
    · have h3 : (0.3 : ℝ) ≤ max (0.3 + 0.7 * Real.sin (Real.pi * ((i : ℝ) / (n : ℝ)))) 0.3 :=
        le_max_right _ _
      linarith
  exact_mod_cast round_nonneg_of_nonneg hpos.le

/-- C4 (amended): in a non-degenerate path, every point (including the
final snapped one) has integer x and y and a nonnegative `dt`; every
point but the last also has an integer `dt`; the final point's `dt` is
the raw (unrounded) `rand(2,6)` draw, lying in `[2, 6)`. -/
theorem generatePath_points_amended (frm tgt : P2) (opts : MotionConfig)
    (us sb t1 m1 t2 m2 : ℝ) (uj g1 g2 : ℕ → ℝ) (ufin : ℝ)
    (hdist : 1 ≤ vec.mag (vec.sub tgt frm))
    (huj : ∀ i, 0 ≤ uj i) (hfl : 0 ≤ ufin) (hfu : ufin < 1) :
    (∀ p ∈ generatePath frm tgt opts us sb t1 m1 t2 m2 uj g1 g2 ufin,
      (∃ a : ℤ, p.x = (a : ℝ)) ∧ (∃ b : ℤ, p.y = (b : ℝ)) ∧ 0 ≤ p.dt) ∧
    (∀ p ∈ (generatePath frm tgt opts us sb t1 m1 t2 m2 uj g1 g2 ufin).dropLast,
      ∃ d : ℤ, p.dt = (d : ℝ)) ∧
    (∀ p, (generatePath frm tgt opts us sb t1 m1 t2 m2 uj g1 g2 ufin).getLast? = some p →
      p.dt = rand 2 6 ufin ∧ 2 ≤ p.dt ∧ p.dt < 6) := by
  have hnl : ¬ vec.mag (vec.sub tgt frm) < 1 := not_lt.mpr hdist
  have hE := generatePath_not_lt frm tgt opts us sb t1 m1 t2 m2 uj g1 g2 ufin hnl
  have hloop : ∀ q ∈ (List.range (genBaseSteps frm tgt opts us + 1)).map
      (genPoint frm tgt (opts.tremor.getD 1.2)
        (bezierControlPoints frm tgt opts.spread sb t1 m1 t2 m2).1
        (bezierControlPoints frm tgt opts.spread sb t1 m1 t2 m2).2
        (genBaseSteps frm tgt opts us) uj g1 g2),
      (∃ a : ℤ, q.x = (a : ℝ)) ∧ (∃ b : ℤ, q.y = (b : ℝ)) ∧
      (∃ d : ℤ, q.dt = (d : ℝ)) ∧ 0 ≤ q.dt := by
    intro q hq
    obtain ⟨i, _, rfl⟩ := List.mem_map.mp hq
    exact genPoint_shape frm tgt _ _ _ _ uj g1 g2 i (huj i)
  have hrand : 2 ≤ rand 2 6 ufin ∧ rand 2 6 ufin < 6 := by
    unfold rand
    constructor <;> nlinarith
  refine ⟨?_, ?_, ?_⟩
  · intro p hp
    rw [hE] at hp
    rcases List.mem_append.mp hp with hp | hp
    · have hmem := (List.dropLast_sublist _).subset hp
      obtain ⟨ha, hb, _, hd⟩ := hloop p hmem
      exact ⟨ha, hb, hd⟩
    · rcases List.mem_singleton.mp hp with rfl
      exact ⟨⟨_, rfl⟩, ⟨_, rfl⟩, by simpa using hrand.1.trans' (by norm_num)⟩
  · intro p hp
    rw [hE, List.dropLast_concat] at hp
    have hmem := (List.dropLast_sublist _).subset hp
    obtain ⟨_, _, hd, _⟩ := hloop p hmem
    exact hd
  · intro p hp
    rw [hE, List.getLast?_concat] at hp
    rcases Option.some.injEq _ _ ▸ hp with rfl
    exact ⟨rfl, hrand.1, hrand.2⟩

/-- C4 counterexample: at a non-degenerate concrete move with final
`rand(2,6)` draw `1/8`, the path's final point (the snapped target) has
`dt = 2.5`, which is not an integer — the source does not round the
final point's `dt` (human-mouse.js line 145). -/
theorem generatePath_final_dt_noninteger_cex :
    (generatePath ⟨0, 0⟩ ⟨50, 0⟩ {} 0 0 0 0 0 0
        (fun _ => 0) (fun _ => 0) (fun _ => 0) (1/8)).getLast? =
      some ⟨50, 0, 5/2⟩ ∧
    ¬ ∃ d : ℤ, ((5 : ℝ)/2 = (d : ℝ)) := by
  constructor
  · have hnl : ¬ vec.mag (vec.sub (⟨50, 0⟩ : P2) ⟨0, 0⟩) < 1 := by
      rw [mag_50]; norm_num
    rw [generatePath_getLast?_eq _ _ _ _ _ _ _ _ _ _ _ _ _ hnl]
    norm_num [rand, round_eq]
  · rintro ⟨d, hd⟩
    have h2 : ((2 * d : ℤ) : ℝ) = 5 := by push_cast; linarith
    have h3 : (2 * d : ℤ) = 5 := by exact_mod_cast h2
    omega

/-- Witness for the amended C4 theorem at a concrete non-degenerate move. -/
theorem generatePath_points_amended_witness :
    (1 : ℝ) ≤ vec.mag (vec.sub ⟨50, 0⟩ ⟨0, 0⟩) ∧
    (∀ p ∈ generatePath ⟨0, 0⟩ ⟨50, 0⟩ {} 0 0 0 0 0 0
        (fun _ => 0) (fun _ => 0) (fun _ => 0) 0,
      (∃ a : ℤ, p.x = (a : ℝ)) ∧ (∃ b : ℤ, p.y = (b : ℝ)) ∧ 0 ≤ p.dt) := by
  have h1 : (1 : ℝ) ≤ vec.mag (vec.sub ⟨50, 0⟩ ⟨0, 0⟩) := by
    rw [mag_50]; norm_num
  exact ⟨h1, (generatePath_points_amended ⟨0, 0⟩ ⟨50, 0⟩ {} 0 0 0 0 0 0
      (fun _ => 0) (fun _ => 0) (fun _ => 0) 0 h1
      (fun _ => le_refl 0) (le_refl 0) (by norm_num)).1⟩

/-- C5 (amended): the source uses JS `||`, not `??`: a provided NONZERO
`config.steps` is used as given (path length `steps + 1`); when `steps`
is absent OR provided as `0`, the Fitts default
`max(15, round(log2(dist/targetWidth + 1)·18 + uniform(5,15)))` is used,
with `targetWidth = config.targetWidth || 50` (also `||`-defaulted). -/
theorem generatePath_step_count_amended (frm tgt : P2) (opts : MotionConfig)
    (us sb t1 m1 t2 m2 : ℝ) (uj g1 g2 : ℕ → ℝ) (ufin : ℝ)
    (hdist : 1 ≤ vec.mag (vec.sub tgt frm)) :
    (∀ n : ℕ, opts.steps = some n → n ≠ 0 →
      (generatePath frm tgt opts us sb t1 m1 t2 m2 uj g1 g2 ufin).length = n + 1) ∧
    (opts.steps = none ∨ opts.steps = some 0 →
      (generatePath frm tgt opts us sb t1 m1 t2 m2 uj g1 g2 ufin).length =
        (max 15 (round (Real.logb 2
            (vec.mag (vec.sub tgt frm) / jsOrR opts.targetWidth 50 + 1) * 18 +
          rand 5 15 us))).toNat + 1) := by
  have hL := generatePath_length frm tgt opts us sb t1 m1 t2 m2 uj g1 g2 ufin
    (not_lt.mpr hdist)
  constructor
  · intro n hn hn0
    rw [hL]
    simp only [genBaseSteps, jsOrN, hn, if_neg hn0]
  · intro hcase
    rw [hL]
    rcases hcase with hn | hn <;> simp [genBaseSteps, jsOrN, hn]

/-- C5 counterexample: with `config.steps` PROVIDED as `0` (and all other
draws fixed), null-coalescing semantics would give a path of `0 + 1 = 1`
point, but the source's `opts.steps || ...` treats `0` as absent and
produces the Fitts default of 23 steps, hence 24 points. -/
theorem generatePath_steps_zero_cex :
    (generatePath ⟨0, 0⟩ ⟨50, 0⟩ { steps := some 0 } 0 0 0 0 0 0
        (fun _ => 0) (fun _ => 0) (fun _ => 0) 0).length = 24 ∧ (24 : ℕ) ≠ 0 + 1 := by
  constructor
  · have hnl : ¬ vec.mag (vec.sub (⟨50, 0⟩ : P2) ⟨0, 0⟩) < 1 := by
      rw [mag_50]; norm_num
    rw [generatePath_length _ _ _ _ _ _ _ _ _ _ _ _ _ hnl]
    simp only [genBaseSteps, jsOrN, if_pos rfl, mag_50]
    rw [show jsOrR none 50 = (50 : ℝ) from rfl]
    rw [show (50 : ℝ) / 50 + 1 = 2 by norm_num]
    rw [Real.logb_self_eq_one (by norm_num)]
    rw [show (1 : ℝ) * 18 + rand 5 15 0 = 23 by unfold rand; norm_num]
    rw [show round (23 : ℝ) = 23 by norm_num [round_eq]]
    rfl
  · norm_num

/-- Witness for the amended C5 theorem: a provided nonzero step count is
used as given. -/
theorem generatePath_step_count_amended_witness :
    (1 : ℝ) ≤ vec.mag (vec.sub ⟨50, 0⟩ ⟨0, 0⟩) ∧
    (generatePath ⟨0, 0⟩ ⟨50, 0⟩ { steps := some 7 } 0 0 0 0 0 0
        (fun _ => 0) (fun _ => 0) (fun _ => 0) 0).length = 7 + 1 := by
  have h1 : (1 : ℝ) ≤ vec.mag (vec.sub ⟨50, 0⟩ ⟨0, 0⟩) := by
    rw [mag_50]; norm_num
  exact ⟨h1, (generatePath_step_count_amended ⟨0, 0⟩ ⟨50, 0⟩ { steps := some 7 } 0 0 0 0 0 0
      (fun _ => 0) (fun _ => 0) (fun _ => 0) 0 h1).1 7 rfl (by norm_num)⟩

/-- C2 (amended): for every box with positive width and height, the
pre-rounding target lies in `[origin + 0.15·size, origin + 0.85·size)` on
each axis, so the rounded returned point lies in
`[round(origin + 0.15·size), round(origin + 0.85·size)]`; the exact
center of the box is NOT excluded (see the counterexample). -/
theorem moveToElement_inner_band_amended (box : Box) (u v : ℝ)
    (hw : 0 < box.width) (hh : 0 < box.height)
    (hu0 : 0 ≤ u) (hu1 : u < 1) (hv0 : 0 ≤ v) (hv1 : v < 1) :
    round (box.x + box.width * 0.15) ≤ (moveToElementPoint box u v).1 ∧
    (moveToElementPoint box u v).1 ≤ round (box.x + box.width * 0.85) ∧
    round (box.y + box.height * 0.15) ≤ (moveToElementPoint box u v).2 ∧
    (moveToElementPoint box u v).2 ≤ round (box.y + box.height * 0.85) := by
  simp only [moveToElementPoint]
  refine ⟨?_, ?_, ?_, ?_⟩
  · apply round_le_round
    unfold rand
    nlinarith
  · apply round_le_round
    unfold rand
    nlinarith
  · apply round_le_round
    unfold rand
    nlinarith
  · apply round_le_round
    unfold rand
    nlinarith

/-- C2 counterexample: with both uniform draws equal to `1/2` the point
returned for box `{x:100, y:100, width:40, height:20}` is `(120, 110)`,
which IS the exact center `(100 + 40/2, 100 + 20/2)` of the box — the
"never the exact center" part of the claim fails. -/
theorem moveToElement_center_cex :
    moveToElementPoint ⟨100, 100, 40, 20⟩ (1/2) (1/2) = (120, 110) ∧
    (120 : ℝ) = 100 + 40/2 ∧ (110 : ℝ) = 100 + 20/2 := by
  refine ⟨?_, by norm_num, by norm_num⟩
  simp only [moveToElementPoint, rand]
  rw [show (100 : ℝ) + 40 * 0.15 + ((1/2) * (40 - 2 * (40 * 0.15) - 0) + 0) = 120 by norm_num]
  rw [show (100 : ℝ) + 20 * 0.15 + ((1/2) * (20 - 2 * (20 * 0.15) - 0) + 0) = 110 by norm_num]
  rw [show round (120 : ℝ) = 120 by norm_num [round_eq]]
  rw [show round (110 : ℝ) = 110 by norm_num [round_eq]]

/-- Witness for the amended C2 theorem at the spec's concrete 40×20 box:
the rounded band endpoints are `[106, 134]` and `[103, 117]`. -/
theorem moveToElement_inner_band_amended_witness :
    (0 : ℝ) < 40 ∧ (0 : ℝ) < 20 ∧
    106 ≤ (moveToElementPoint ⟨100, 100, 40, 20⟩ (1/2) (1/2)).1 ∧
    (moveToElementPoint ⟨100, 100, 40, 20⟩ (1/2) (1/2)).1 ≤ 134 ∧
    103 ≤ (moveToElementPoint ⟨100, 100, 40, 20⟩ (1/2) (1/2)).2 ∧
    (moveToElementPoint ⟨100, 100, 40, 20⟩ (1/2) (1/2)).2 ≤ 117 := by
  have h := moveToElement_inner_band_amended ⟨100, 100, 40, 20⟩ (1/2) (1/2)
    (by norm_num) (by norm_num) (by norm_num) (by norm_num) (by norm_num) (by norm_num)
  norm_num [round_eq] at h
  exact ⟨by norm_num, by norm_num, h.1, h.2.1, h.2.2.1, h.2.2.2⟩

/-- C3 (code bug): JS `',. ;:!?'.includes(text[i-1] || '')` is `true` at
`i = 0` for ANY text, because `text[-1]` is `undefined`, `undefined || ''`
is `''`, and `includes('')` always returns `true`; so `humanType` inserts
the `uniform(80,200)` punctuation pause BEFORE the first character (here:
an `Ev.wait 80` precedes the first key-press of `"ab"`), although no
previous character exists.  For `i > 0` the condition does agree with the
claim (the previous character `'a'` is not punctuation, so no pause). -/
theorem humanType_punct_pause_first_char_bug :
    humanTypeTrace ['a', 'b'] none none
        (fun _ => 1/2) (fun _ => 0) (fun _ => 0) (fun _ => 0) =
      [Ev.wait 80, Ev.key 'a', Ev.wait 65, Ev.key 'b', Ev.wait 65] ∧
    punctPause ['a', 'b'] 0 = true ∧
    punctPause ['a', 'b'] 1 = false := by
  refine ⟨?_, by decide, by decide⟩
  simp only [humanTypeTrace, jsOrR, List.length_cons, List.length_nil]
  rw [show List.range 2 = [0, 1] by rfl]
  simp only [List.flatMap_cons, List.flatMap_nil]
  rw [if_neg (by norm_num : ¬ ((1:ℝ)/2 < 0.08 ∧ 0 < 0))]
  rw [if_neg (by norm_num : ¬ ((1:ℝ)/2 < 0.08 ∧ 0 < 1))]
  rw [if_pos (by decide : punctPause ['a', 'b'] 0 = true)]
  rw [if_neg (by decide : ¬ punctPause ['a', 'b'] 1 = true)]
  simp only [List.getD, gauss]
  norm_num [rand, round_eq]

/-- Integer bounds survive `Math.round`. -/
theorem round_bounds {x : ℝ} {a b : ℤ} (hl : (a : ℝ) ≤ x) (hu : x ≤ (b : ℝ)) :
    a ≤ round x ∧ round x ≤ b :=
  ⟨by simpa using round_le_round hl, by simpa using round_le_round hu⟩

/-- Predicate for the inter-step pacing suspension of `humanScroll`
(a wait whose duration lies in the `uniform(60,150)` band). -/
def isPacingWait (e : Ev) : Bool :=
  match e with
  | Ev.wait m => decide (60 ≤ m ∧ m ≤ 150)
  | _ => false

/-- Predicate for scroll-by events. -/
def isWheel (e : Ev) : Bool :=
  match e with
  | Ev.wheel _ => true
  | _ => false

/-- C6 (amended): `humanScroll` performs `n = round(uniform(3,6)) ∈ [3,6]`
scroll-by events, suspends `uniform(60,150)` after EVERY scroll-by (n
suspensions, not n−1: the wait sits inside the loop body, also after the
last step), then suspends `uniform(200,500)` once. -/
theorem humanScroll_trace_amended (deltaY u : ℝ) (g w : ℕ → ℝ) (wf : ℝ)
    (hu0 : 0 ≤ u) (hu1 : u < 1) (hw0 : ∀ i, 0 ≤ w i) (hw1 : ∀ i, w i < 1)
    (hf0 : 0 ≤ wf) (hf1 : wf < 1) :
    3 ≤ (round (rand 3 6 u)).toNat ∧ (round (rand 3 6 u)).toNat ≤ 6 ∧
    humanScrollTrace deltaY u g w wf =
      ((List.range (round (rand 3 6 u)).toNat).flatMap fun i =>
        [Ev.wheel (round (deltaY / ((round (rand 3 6 u) : ℤ) : ℝ) +
            gauss (g i) 0 (|deltaY / ((round (rand 3 6 u) : ℤ) : ℝ)| * 0.15))),
         Ev.wait (round (rand 60 150 (w i)))]) ++
      [Ev.wait (round (rand 200 500 wf))] ∧
    (∀ i, 60 ≤ round (rand 60 150 (w i)) ∧ round (rand 60 150 (w i)) ≤ 150) ∧
    200 ≤ round (rand 200 500 wf) ∧ round (rand 200 500 wf) ≤ 500 := by
  have hn : (3 : ℤ) ≤ round (rand 3 6 u) ∧ round (rand 3 6 u) ≤ 6 := by
    apply round_bounds
    · unfold rand; push_cast; nlinarith
    · unfold rand; push_cast; nlinarith
  refine ⟨?_, ?_, rfl, ?_, ?_⟩
  · have h3 : ((3 : ℤ)).toNat ≤ (round (rand 3 6 u)).toNat := Int.toNat_le_toNat hn.1
    simpa using h3
  · have h6 : (round (rand 3 6 u)).toNat ≤ ((6 : ℤ)).toNat := Int.toNat_le_toNat hn.2
    simpa using h6
  · intro i
    apply round_bounds
    · unfold rand; push_cast; nlinarith [hw0 i, hw1 i]
    · unfold rand; push_cast; nlinarith [hw0 i, hw1 i]
  · apply round_bounds
    · unfold rand; push_cast; nlinarith
    · unfold rand; push_cast; nlinarith

/-- C6 counterexample: at `deltaY = 300` with all draws `0`, the code
issues 3 scroll-by events but 3 (not 3−1 = 2) pacing waits in the
`uniform(60,150)` band — one after EVERY wheel event, including the last,
before the final `uniform(200,500)` wait. -/
theorem humanScroll_wait_count_cex :
    humanScrollTrace 300 0 (fun _ => 0) (fun _ => 0) 0 =
      [Ev.wheel 100, Ev.wait 60, Ev.wheel 100, Ev.wait 60,
       Ev.wheel 100, Ev.wait 60, Ev.wait 200] ∧
    List.countP isPacingWait
      [Ev.wheel 100, Ev.wait 60, Ev.wheel 100, Ev.wait 60,
       Ev.wheel 100, Ev.wait 60, Ev.wait 200] = 3 ∧
    List.countP isWheel
      [Ev.wheel 100, Ev.wait 60, Ev.wheel 100, Ev.wait 60,
       Ev.wheel 100, Ev.wait 60, Ev.wait 200] = 3 ∧
    (3 : ℕ) ≠ 3 - 1 := by
  refine ⟨?_, by decide, by decide, by decide⟩
  have hsteps : round (rand 3 6 (0:ℝ)) = (3:ℤ) := by norm_num [rand, round_eq]
  simp only [humanScrollTrace, hsteps]
  rw [show ((3:ℤ)).toNat = 3 from rfl]
  rw [show List.range 3 = [0, 1, 2] by rfl]
  simp only [List.flatMap_cons, List.flatMap_nil, gauss]
  norm_num [rand, round_eq]

/-- Witness for the amended C6 theorem at a concrete scroll. -/
theorem humanScroll_trace_amended_witness :
    (0 : ℝ) ≤ 0 ∧ (0 : ℝ) < 1 ∧
    3 ≤ (round (rand 3 6 (0 : ℝ))).toNat ∧ (round (rand 3 6 (0 : ℝ))).toNat ≤ 6 ∧
    200 ≤ round (rand 200 500 (0 : ℝ)) ∧ round (rand 200 500 (0 : ℝ)) ≤ 500 := by
  have h := humanScroll_trace_amended 300 0 (fun _ => 0) (fun _ => 0) 0
    (by norm_num) (by norm_num) (fun _ => by norm_num) (fun _ => by norm_num)
    (by norm_num) (by norm_num)
  exact ⟨by norm_num, by norm_num, h.1, h.2.1, h.2.2.2.2.1, h.2.2.2.2.2⟩

noncomputable section

/-- The side coin of `bezierControlPoints` (line 61):
`Math.random() > 0.5 ? 1 : -1`. -/
def bcpSide (sb : ℝ) : ℝ := if sb > 0.5 then 1 else -1

/-- The clamped spread of `bezierControlPoints` (line 59). -/
def bcpSpread (start endp : P2) (spread : Option ℝ) : ℝ :=
  max 2 (min (vec.mag (vec.sub endp start) * 0.5)
    (jsOrR spread (vec.mag (vec.sub endp start) * 0.3)))

/-- The `makeCP()` closure of `bezierControlPoints` (lines 63-68). -/
def makeCP (start endp : P2) (spread : Option ℝ) (sb t m : ℝ) : P2 :=
  vec.add (vec.lerp start endp (rand 0.2 0.8 t))
    (vec.setMag (vec.perp (vec.sub endp start))
      (bcpSpread start endp spread * rand 0.3 1.0 m * bcpSide sb))

/-- The `proj` closure of `bezierControlPoints` (lines 73-76): scalar
projection of `p - start` onto the start→end direction (scaled by
`1/dist²`). -/
def bcpProj (start endp : P2) (p : P2) : ℝ :=
  ((vec.sub p start).x * (vec.sub endp start).x +
   (vec.sub p start).y * (vec.sub endp start).y) /
  (vec.mag (vec.sub endp start) * vec.mag (vec.sub endp start))

/-- 2D cross product (used to state on which side of the start→end line a
point lies). -/
def cross (a b : P2) : ℝ := a.x * b.y - a.y * b.x

end

/-- `bezierControlPoints` in terms of its named internal pieces. -/
theorem bezierControlPoints_eq (start endp : P2) (spread : Option ℝ)
    (sb t1 m1 t2 m2 : ℝ) :
    bezierControlPoints start endp spread sb t1 m1 t2 m2 =
      if bcpProj start endp (makeCP start endp spread sb t1 m1) ≤
          bcpProj start endp (makeCP start endp spread sb t2 m2) then
        (makeCP start endp spread sb t1 m1, makeCP start endp spread sb t2 m2)
      else
        (makeCP start endp spread sb t2 m2, makeCP start endp spread sb t1 m1) := rfl

/-- Cross product of `makeCP() - start` with the start→end direction: the
perpendicular offset contributes `M·s/√s`, whose sign is the sign of the
offset magnitude `M`. -/
theorem cross_makeCP (start endp : P2) (spread : Option ℝ) (sb t m : ℝ)
    (hs : 0 < (vec.sub endp start).x * (vec.sub endp start).x +
        (vec.sub endp start).y * (vec.sub endp start).y) :
    cross (vec.sub (makeCP start endp spread sb t m) start) (vec.sub endp start) =
      (bcpSpread start endp spread * rand 0.3 1.0 m * bcpSide sb) *
        ((vec.sub endp start).x * (vec.sub endp start).x +
         (vec.sub endp start).y * (vec.sub endp start).y) /
        Real.sqrt ((vec.sub endp start).x * (vec.sub endp start).x +
         (vec.sub endp start).y * (vec.sub endp start).y) := by
  have hmagperp : vec.mag (vec.perp (vec.sub endp start)) =
      Real.sqrt ((vec.sub endp start).x * (vec.sub endp start).x +
        (vec.sub endp start).y * (vec.sub endp start).y) := by
    simp only [vec.mag, vec.perp]
    ring_nf
  have hsq : Real.sqrt ((vec.sub endp start).x * (vec.sub endp start).x +
      (vec.sub endp start).y * (vec.sub endp start).y) ≠ 0 :=
    ne_of_gt (Real.sqrt_pos.mpr hs)
  have hsqpos := Real.sqrt_pos.mpr hs
  unfold makeCP vec.setMag vec.unit
  rw [hmagperp, if_neg hsq]
  simp only [cross, vec.add, vec.lerp, vec.sub, vec.perp, vec.mult]
  field_simp
  ring

/-- C7: for `start ≠ end`, the two control points returned by
`bezierControlPoints` lie strictly on the same side of the start→end line
(the product of the two cross products of `(point - start)` with
`(end - start)` is strictly positive), and the first returned point's
scalar projection onto the start→end direction is at most the second's. -/
theorem bezierControlPoints_same_side (start endp : P2) (spread : Option ℝ)
    (sb t1 m1 t2 m2 : ℝ) (hne : start ≠ endp) (hm1 : 0 ≤ m1) (hm2 : 0 ≤ m2) :
    0 < cross (vec.sub (bezierControlPoints start endp spread sb t1 m1 t2 m2).1 start)
          (vec.sub endp start) *
        cross (vec.sub (bezierControlPoints start endp spread sb t1 m1 t2 m2).2 start)
          (vec.sub endp start) ∧
    bcpProj start endp (bezierControlPoints start endp spread sb t1 m1 t2 m2).1 ≤
      bcpProj start endp (bezierControlPoints start endp spread sb t1 m1 t2 m2).2 := by
  have hs : 0 < (vec.sub endp start).x * (vec.sub endp start).x +
      (vec.sub endp start).y * (vec.sub endp start).y := by
    rcases lt_or_le 0 ((vec.sub endp start).x * (vec.sub endp start).x +
        (vec.sub endp start).y * (vec.sub endp start).y) with h | h
    · exact h
    · exfalso
      have hx : (vec.sub endp start).x = 0 := by nlinarith [sq_nonneg (vec.sub endp start).x, sq_nonneg (vec.sub endp start).y]
      have hy : (vec.sub endp start).y = 0 := by nlinarith [sq_nonneg (vec.sub endp start).x, sq_nonneg (vec.sub endp start).y]
      apply hne
      cases start with
      | mk sx sy =>
        cases endp with
        | mk ex ey =>
          simp only [vec.sub] at hx hy
          simp only [P2.mk.injEq]
          constructor <;> linarith
  have hsqpos := Real.sqrt_pos.mpr hs
  have hc1 := cross_makeCP start endp spread sb t1 m1 hs
  have hc2 := cross_makeCP start endp spread sb t2 m2 hs
  have hside : bcpSide sb * bcpSide sb = 1 := by
    unfold bcpSide
    split <;> norm_num
  have hcs : (2 : ℝ) ≤ bcpSpread start endp spread := le_max_left _ _
  have hr1 : (0.3 : ℝ) ≤ rand 0.3 1.0 m1 := by unfold rand; nlinarith
  have hr2 : (0.3 : ℝ) ≤ rand 0.3 1.0 m2 := by unfold rand; nlinarith
  have hM : 0 < (bcpSpread start endp spread * rand 0.3 1.0 m1 * bcpSide sb) *
      (bcpSpread start endp spread * rand 0.3 1.0 m2 * bcpSide sb) := by
    have heq : (bcpSpread start endp spread * rand 0.3 1.0 m1 * bcpSide sb) *
        (bcpSpread start endp spread * rand 0.3 1.0 m2 * bcpSide sb) =
        (bcpSpread start endp spread * bcpSpread start endp spread) *
        (rand 0.3 1.0 m1 * rand 0.3 1.0 m2) * (bcpSide sb * bcpSide sb) := by ring
    have hcs0 : (0 : ℝ) < bcpSpread start endp spread := lt_of_lt_of_le (by norm_num) hcs
    have hr10 : (0 : ℝ) < rand 0.3 1.0 m1 := lt_of_lt_of_le (by norm_num) hr1
    have hr20 : (0 : ℝ) < rand 0.3 1.0 m2 := lt_of_lt_of_le (by norm_num) hr2
    rw [heq, hside, mul_one]
    exact mul_pos (mul_pos hcs0 hcs0) (mul_pos hr10 hr20)
  have hdiv : 0 < ((vec.sub endp start).x * (vec.sub endp start).x +
      (vec.sub endp start).y * (vec.sub endp start).y) /
      Real.sqrt ((vec.sub endp start).x * (vec.sub endp start).x +
        (vec.sub endp start).y * (vec.sub endp start).y) := div_pos hs hsqpos
  have hprod : 0 < cross (vec.sub (makeCP start endp spread sb t1 m1) start) (vec.sub endp start) *
      cross (vec.sub (makeCP start endp spread sb t2 m2) start) (vec.sub endp start) := by
    rw [hc1, hc2]
    have heq2 : bcpSpread start endp spread * rand 0.3 1.0 m1 * bcpSide sb *
        ((vec.sub endp start).x * (vec.sub endp start).x +
          (vec.sub endp start).y * (vec.sub endp start).y) /
        Real.sqrt ((vec.sub endp start).x * (vec.sub endp start).x +
          (vec.sub endp start).y * (vec.sub endp start).y) *
        (bcpSpread start endp spread * rand 0.3 1.0 m2 * bcpSide sb *
        ((vec.sub endp start).x * (vec.sub endp start).x +
          (vec.sub endp start).y * (vec.sub endp start).y) /
        Real.sqrt ((vec.sub endp start).x * (vec.sub endp start).x +
          (vec.sub endp start).y * (vec.sub endp start).y)) =
        ((bcpSpread start endp spread * rand 0.3 1.0 m1 * bcpSide sb) *
         (bcpSpread start endp spread * rand 0.3 1.0 m2 * bcpSide sb)) *
        (((vec.sub endp start).x * (vec.sub endp start).x +
          (vec.sub endp start).y * (vec.sub endp start).y) /
         Real.sqrt ((vec.sub endp start).x * (vec.sub endp start).x +
          (vec.sub endp start).y * (vec.sub endp start).y) *
         (((vec.sub endp start).x * (vec.sub endp start).x +
          (vec.sub endp start).y * (vec.sub endp start).y) /
         Real.sqrt ((vec.sub endp start).x * (vec.sub endp start).x +
          (vec.sub endp start).y * (vec.sub endp start).y))) := by ring
    rw [heq2]
    exact mul_pos hM (mul_pos hdiv hdiv)
  rw [bezierControlPoints_eq]
  by_cases hord : bcpProj start endp (makeCP start endp spread sb t1 m1) ≤
      bcpProj start endp (makeCP start endp spread sb t2 m2)
  · rw [if_pos hord]
    exact ⟨hprod, hord⟩
  · rw [if_neg hord]
    refine ⟨by nlinarith, le_of_lt (not_le.mp hord)⟩

/-- Witness for C7 at a concrete pair of endpoints. -/
theorem bezierControlPoints_same_side_witness :
    (⟨0, 0⟩ : P2) ≠ ⟨1, 0⟩ ∧
    0 < cross (vec.sub (bezierControlPoints ⟨0, 0⟩ ⟨1, 0⟩ none 1 0 0 0 0).1 ⟨0, 0⟩)
          (vec.sub ⟨1, 0⟩ ⟨0, 0⟩) *
        cross (vec.sub (bezierControlPoints ⟨0, 0⟩ ⟨1, 0⟩ none 1 0 0 0 0).2 ⟨0, 0⟩)
          (vec.sub ⟨1, 0⟩ ⟨0, 0⟩) := by
  have hne : (⟨0, 0⟩ : P2) ≠ ⟨1, 0⟩ := by
    intro h
    have hx := congrArg P2.x h
    norm_num at hx
  exact ⟨hne, (bezierControlPoints_same_side ⟨0, 0⟩ ⟨1, 0⟩ none 1 0 0 0 0 hne
    (le_refl 0) (le_refl 0)).1⟩

/-- C8: whenever the uniform stream eventually yields an accepted pair
(`0 < u²+v² < 1`), the rejection loop of `gaussRandom` terminates at the
FIRST accepted pair (every earlier pair is rejected) and the function
returns `u · sqrt(-2·ln(s)/s)` computed from that pair — there is no
retry cap. -/
theorem gaussRandom_first_accepted (r : ℕ → ℚ) (h : ∃ k, gaussAccept r k = true) :
    gaussAccept r (gaussRandomIdx r h) = true ∧
    (∀ j < gaussRandomIdx r h, gaussAccept r j = false) ∧
    gaussRandom r h =
      ((gaussU r (gaussRandomIdx r h) : ℚ) : ℝ) *
        Real.sqrt (-2 * Real.log ((gaussS r (gaussRandomIdx r h) : ℚ) : ℝ) /
          ((gaussS r (gaussRandomIdx r h) : ℚ) : ℝ)) := by
  refine ⟨Nat.find_spec h, ?_, rfl⟩
  intro j hj
  have hmin := Nat.find_min h hj
  simpa using hmin

/-- Witness for C8: the constant stream `3/4` gives `u = v = 1/2`,
`s = 1/2`, accepted immediately at index 0. -/
theorem gaussRandom_first_accepted_witness :
    gaussAccept (fun _ => (3/4 : ℚ)) 0 = true ∧
    gaussAccept (fun _ => (3/4 : ℚ))
      (gaussRandomIdx (fun _ => (3/4 : ℚ))
        ⟨0, by norm_num [gaussAccept]⟩) = true := by
  exact ⟨by norm_num [gaussAccept],
    (gaussRandom_first_accepted (fun _ => (3/4 : ℚ)) ⟨0, by norm_num [gaussAccept]⟩).1⟩

/-- C9: `vec.unit` is total and never divides by zero — it returns the
zero vector when the magnitude is zero and `a / |a|` otherwise; hence
`vec.setMag` is well-defined on the zero vector (returning the zero
vector). -/
theorem vec_unit_total (a : P2) (m : ℝ) :
    (vec.mag a = 0 → vec.unit a = ⟨0, 0⟩) ∧
    (vec.mag a ≠ 0 → vec.unit a = ⟨a.x / vec.mag a, a.y / vec.mag a⟩) ∧
    (vec.mag a = 0 → vec.setMag a m = ⟨0, 0⟩) := by
  refine ⟨?_, ?_, ?_⟩
  · intro h
    unfold vec.unit
    rw [if_pos h]
  · intro h
    unfold vec.unit
    rw [if_neg h]
  · intro h
    unfold vec.setMag vec.unit
    rw [if_pos h]
    simp [vec.mult]

/-- Witness for C9 at the zero vector and at `(3,4)`. -/
theorem vec_unit_total_witness :
    vec.mag (⟨0, 0⟩ : P2) = 0 ∧ vec.unit (⟨0, 0⟩ : P2) = ⟨0, 0⟩ ∧
    vec.setMag (⟨0, 0⟩ : P2) 5 = ⟨0, 0⟩ ∧
    vec.mag (⟨3, 4⟩ : P2) ≠ 0 ∧
    vec.unit (⟨3, 4⟩ : P2) = ⟨3 / vec.mag ⟨3, 4⟩, 4 / vec.mag ⟨3, 4⟩⟩ := by
  have h0 : vec.mag (⟨0, 0⟩ : P2) = 0 := by simp [vec.mag]
  have h1 : vec.mag (⟨3, 4⟩ : P2) = 5 := by
    simp only [vec.mag]
    rw [show (3 : ℝ) * 3 + 4 * 4 = 5 * 5 by norm_num]
    exact Real.sqrt_mul_self (by norm_num)
  have h1n : vec.mag (⟨3, 4⟩ : P2) ≠ 0 := by rw [h1]; norm_num
  exact ⟨h0, (vec_unit_total ⟨0, 0⟩ 5).1 h0, (vec_unit_total ⟨0, 0⟩ 5).2.2 h0,
    h1n, (vec_unit_total ⟨3, 4⟩ 5).2.1 h1n⟩

/-- C10: `click` and `humanScroll` never modify the controller's owned
cursor position: the state component of their semantics is the incoming
state unchanged (the closures never assign `cursorPos`), whereas `moveTo`
sets the owned position to its exact target. -/
theorem click_scroll_preserve_position (s : P2) (d1 d2 d3 deltaY u : ℝ)
    (g w : ℕ → ℝ) (wf x y : ℝ) :
    (clickSem s d1 d2 d3).1 = s ∧
    (humanScrollSem s deltaY u g w wf).1 = s ∧
    moveToSemPos s x y = ⟨x, y⟩ :=
  ⟨rfl, rfl, rfl⟩
